import Mathlib

/-
Verification of the tag-driven capture-binding package (re.go).

The development shallowly embeds the reflective algorithm of the package:
Go types are modelled by the inductive `GoType`, Go values by `GoValue`,
and the getter closures built by `extractFields` are modelled by explicit
field paths (`Path`).  The Go map `fields` is modelled by an association
list in which an entry appended later shadows an earlier entry with the
same key (`lookupF` returns the last matching entry), which is exactly the
overwrite semantics of map assignment in the source.  The regular
expression engine is out of scope of the package (it is the standard
library); it is modelled abstractly by the record `RegexEngine` holding
the three operations the package consumes.
-/

namespace RegexpStruct

/-- A traversal step of a field path: select a struct field by index, or
dereference a pointer (allocating a fresh pointee when it is nil, as the
closure built for the `reflect.Ptr` case of `extractFields` does). -/
inductive Step : Type where
  | field : Nat → Step
  | deref : Step
deriving DecidableEq

/-- A field path: the explicit form of the getter closures of type
`func(reflect.Value) reflect.Value` composed by `extractFields`. -/
abbrev Path := List Step

/-- A struct tag, as the association list of key-value pairs that
`reflect.StructTag.Lookup` consults. -/
abbrev GoTag := List (String × String)

mutual
/-- The Go types relevant to the package: `string`, any other scalar kind,
pointer types, and struct types.  A struct type carries: whether it is a
named (defined) type (`f.Type.Name() != ""`), whether it is assignable to
the `Set(string) error` interface, whether it is assignable to the
`UnmarshalText([]byte) error` interface, and its ordered field list. -/
inductive GoType : Type where
  | str : GoType
  | scalar : GoType
  | ptr : GoType → GoType
  | structT : Bool → Bool → Bool → GoFields → GoType

/-- An ordered list of struct fields.  A separate inductive (rather than
`List GoField`) so that structural mutual recursion over a type and its
field list is available. -/
inductive GoFields : Type where
  | nil : GoFields
  | cons : GoField → GoFields → GoFields

/-- One struct field: its tag, its `Anonymous` flag, and its type. -/
inductive GoField : Type where
  | mk : GoTag → Bool → GoType → GoField
end

/-- The tag of a field. -/
def GoField.tag : GoField → GoTag
  | .mk t _ _ => t

/-- The `Anonymous` flag of a field. -/
def GoField.anon : GoField → Bool
  | .mk _ a _ => a

/-- The type of a field. -/
def GoField.ty : GoField → GoType
  | .mk _ _ t => t

/-- Indexed access into a field list, as `reflect.Type.Field(i)`. -/
def GoFields.get? : GoFields → Nat → Option GoField
  | .nil, _ => none
  | .cons f _, 0 => some f
  | .cons _ rest, n + 1 => rest.get? n

/-- Concatenation of field lists (used to speak about sibling fields). -/
def GoFields.append : GoFields → GoFields → GoFields
  | .nil, gs => gs
  | .cons f rest, gs => .cons f (rest.append gs)

/-- Number of fields, as `reflect.Type.NumField()`. -/
def GoFields.length : GoFields → Nat
  | .nil => 0
  | .cons _ rest => rest.length + 1

/-- `reflect.StructTag.Lookup`: the value stored under a key, if present. -/
def tagLookup (tag : GoTag) (key : String) : Option String :=
  (tag.find? (fun e => e.1 = key)).map (fun e => e.2)

/-- The test `t.Kind() == reflect.Struct` on the root type in `Compile`. -/
def isStructKind : GoType → Bool
  | .structT _ _ _ _ => true
  | _ => false

/-- The `isStruct` condition of `extractFields`: the field type is of
struct kind, and either it is an unnamed type, or it implements neither
the setter nor the text-unmarshaler interface. -/
def isStructRecurse : GoType → Bool
  | .structT hasName settable unmarshaler _ =>
      !hasName || (!settable && !unmarshaler)
  | _ => false

mutual
/-- `extractFields` of re.go: the name-to-getter map for a type, as an
association list in which later entries shadow earlier ones.  The
`reflect.Ptr` case wraps every getter with an allocate-then-dereference
step; the `reflect.Struct` case walks the fields; all other kinds are
ignored. -/
def extractFields : GoType → String → List (String × Path)
  | .ptr e, k => (extractFields e k).map (fun np => (np.1, Step.deref :: np.2))
  | .structT _ _ _ fs, k => structEntries fs 0 k
  | _, _ => []

/-- The loop over the fields of a struct type in `extractFields`, starting
at field index `i`.  Each iteration appends the entries contributed by the
field; appending later entries models the map overwrites of the source. -/
def structEntries : GoFields → Nat → String → List (String × Path)
  | .nil, _, _ => []
  | .cons f rest, i, k => fieldEntries f i k ++ structEntries rest (i + 1) k

/-- The entries contributed by one field, at index `i`, in the loop body of
`extractFields`: a tagged field of recursable struct type contributes the
`tag ++ "__" ++ subname` composite entries; any other tagged field is bound
directly; an untagged anonymous field contributes its sub-entries without a
name prefix; any other field contributes nothing. -/
def fieldEntries : GoField → Nat → String → List (String × Path)
  | .mk tagL anon ty, i, k =>
    match tagLookup tagL k with
    | some tv =>
      if tv = ("") then
        (if anon then (extractFields ty k).map (fun np => (np.1, Step.field i :: np.2)) else [])
      else if isStructRecurse ty then
        (extractFields ty k).map (fun np => (tv ++ ("__") ++ np.1, Step.field i :: np.2))
      else [(tv, [Step.field i])]
    | none =>
      (if anon then (extractFields ty k).map (fun np => (np.1, Step.field i :: np.2)) else [])
end

/-- Left-biased choice on optional paths (helper for lookup lemmas). -/
def orE : Option Path → Option Path → Option Path
  | some v, _ => some v
  | none, b => b

/-- Lookup in the association list modelling the Go map `fields`: the last
entry with the key wins, which is the value left by the last map
assignment in the source. -/
def lookupF : List (String × Path) → String → Option Path
  | [], _ => none
  | e :: es, m => orE (lookupF es m) (if e.1 = m then some e.2 else none)

/-- A Go value: a string, some other scalar, a pointer (nil or not), or a
struct value given by the ordered list of its field values. -/
inductive GoValue : Type where
  | str : String → GoValue
  | scalar : GoValue
  | ptr : Option GoValue → GoValue
  | structV : List GoValue → GoValue

mutual
/-- The zero value of a type, as produced by `reflect.New` and by
`make([]T, n)`. -/
def zeroValue : GoType → GoValue
  | .str => .str ("")
  | .scalar => .scalar
  | .ptr _ => .ptr none
  | .structT _ _ _ fs => .structV (zeroFields fs)

/-- Zero values of a field list. -/
def zeroFields : GoFields → List GoValue
  | .nil => []
  | .cons (.mk _ _ ty) rest => zeroValue ty :: zeroFields rest
end

/-- Replaying a getter path against a target value and writing string `s`
at the located slot, as `m.get(target).SetString(...)` does: a `field`
step selects a struct field, a `deref` step allocates a fresh pointee when
the pointer is nil and descends into it.  `none` models the reflect panic
on a type mismatch or an out-of-range index. -/
def setPath (s : String) : GoType → GoValue → Path → Option GoValue
  | .str, .str _, [] => some (.str s)
  | .structT _ _ _ fs, .structV vs, .field i :: p =>
    match fs.get? i, vs[i]? with
    | some f, some vi => (setPath s f.ty vi p).map (fun w => GoValue.structV (vs.set i w))
    | _, _ => none
  | .ptr e, .ptr ov, .deref :: p =>
    (setPath s e (ov.getD (zeroValue e)) p).map (fun w => GoValue.ptr (some w))
  | _, _, _ => none

/-- Reading the value stored at a path (no allocation: a nil pointer or a
mismatched step reads nothing).  Used only to state frame properties. -/
def getPath : GoValue → Path → Option GoValue
  | v, [] => some v
  | .structV vs, .field i :: q => (vs[i]?).bind (fun vi => getPath vi q)
  | .ptr (some v), .deref :: q => getPath v q
  | _, _ => none

/-- One capture binding of the compiled matcher: the submatch index and
the getter, modelled by the explicit path the closure denotes. -/
structure capture : Type where
  index : Nat
  get : Path
deriving DecidableEq

/-- The external regular expression engine (the standard `regexp`
package), abstracted to the three operations the package consumes: the
ordered group-name list (`SubexpNames`, index 0 reserved for the whole
match, empty string for an unnamed group), the single-match operation
(`FindStringSubmatch`, `none` modelling the nil no-match result), and the
bounded all-matches operation (`FindAllStringSubmatch`, `none` modelling
the nil zero-match result). -/
structure RegexEngine : Type where
  subexpNames : List String
  findStringSubmatch : String → Option (List String)
  findAllStringSubmatch : String → Int → Option (List (List String))

/-- The compiled matcher `Regexp[T]`: the type argument, the embedded
engine handle, and the ordered capture bindings. -/
structure Regexp : Type where
  ty : GoType
  engine : RegexEngine
  captures : List capture

/-- The loop of `Compile` that builds the capture list: indices walk the
group-name list from position `i`; index 0 is skipped, as are empty names
and names absent from the fields map. -/
def buildCapturesAux : List String → Nat → List (String × Path) → List capture
  | [], _, _ => []
  | name :: rest, i, fields =>
    let tail := buildCapturesAux rest (i + 1) fields
    if i = 0 then tail
    else if name = ("") then tail
    else
      match lookupF fields name with
      | some p => { index := i, get := p } :: tail
      | none => tail

/-- The capture list built by `Compile` from the engine group names and the
resolved fields map. -/
def buildCaptures (names : List String) (fields : List (String × Path)) : List capture :=
  buildCapturesAux names 0 fields

/-- The outcome of `Compile`: a Go panic (with its message), the error
return on a failed pattern compilation, or the compiled matcher. -/
inductive Outcome : Type where
  | panicked : String → Outcome
  | compileError : Outcome
  | ok : Regexp → Outcome

/-- `Compile` of re.go.  The pattern itself is consumed by the external
engine, so the model receives the engine compilation result (`none` for a
pattern error).  The checks happen in source order: empty tag name panics,
a non-struct type argument panics, a pattern error is returned, a type
with no tagged field panics, otherwise the matcher is assembled. -/
def Compile (T : GoType) (structTag : String) (compiled : Option RegexEngine) : Outcome :=
  if structTag = ("") then .panicked ("invalid tag name")
  else if isStructKind T = false then .panicked ("T must be a struct type")
  else
    match compiled with
    | none => .compileError
    | some eng =>
      if (extractFields T structTag).isEmpty then
        .panicked ("type has no fields with stuct tag " ++ structTag)
      else
        .ok { ty := T, engine := eng,
              captures := buildCaptures eng.subexpNames (extractFields T structTag) }

/-- `deserialize` of re.go: writes each bound submatch through its getter
into the target, in capture order.  `none` models a reflect panic. -/
def deserialize (ms : List String) (captures : List capture) (t : GoType)
    (target : GoValue) : Option GoValue :=
  captures.foldl
    (fun acc c => acc.bind (fun v => (ms[c.index]?).bind (fun m => setPath m t v c.get)))
    (some target)

/-- `Regexp.FindStringStruct`: runs the engine single-match operation; on
no match it returns false and leaves the target untouched; otherwise it
deserializes into the target and returns true.  The returned pair is the
boolean result together with the final state of `*target`. -/
def Regexp.FindStringStruct (re : Regexp) (s : String) (target : GoValue) :
    Option (Bool × GoValue) :=
  match re.engine.findStringSubmatch s with
  | none => some (false, target)
  | some ms => (deserialize ms re.captures re.ty target).map (fun v => (true, v))

/-- `Regexp.FindAllStringStruct`: runs the engine all-matches operation
bounded by `n`; the nil zero-match result yields the empty sequence; each
match deserializes into its own zero-valued record, in match order. -/
def Regexp.FindAllStringStruct (re : Regexp) (s : String) (n : Int) :
    Option (List GoValue) :=
  match re.engine.findAllStringSubmatch s n with
  | none => some []
  | some ms => ms.mapM (fun m => deserialize m re.captures re.ty (zeroValue re.ty))

/-! Helper lemmas about the lookup structure. -/

theorem orE_none_right (a : Option Path) : orE a none = a := by
  cases a <;> rfl

theorem orE_assoc (a b c : Option Path) : orE (orE a b) c = orE a (orE b c) := by
  cases a <;> rfl

theorem orE_map (f : Path → Path) (a b : Option Path) :
    Option.map f (orE a b) = orE (Option.map f a) (Option.map f b) := by
  cases a <;> rfl

theorem lookupF_append (xs ys : List (String × Path)) (m : String) :
    lookupF (xs ++ ys) m = orE (lookupF ys m) (lookupF xs m) := by
  induction xs with
  | nil => simp [lookupF, orE_none_right]
  | cons e xs ih => simp [lookupF, ih, orE_assoc]

theorem lookupF_map_key (g : String → String) (f : Path → Path)
    (hg : ∀ a b, g a = g b → a = b) (es : List (String × Path)) (n : String) :
    lookupF (es.map (fun np => (g np.1, f np.2))) (g n) = Option.map f (lookupF es n) := by
  induction es with
  | nil => rfl
  | cons e es ih =>
    simp only [List.map_cons, lookupF, ih, orE_map]
    congr 1
    by_cases h : e.1 = n
    · simp [h]
    · have hne : g e.1 ≠ g n := fun hc => h (hg _ _ hc)
      simp [h, hne]

theorem lookupF_map_path (f : Path → Path) (es : List (String × Path)) (n : String) :
    lookupF (es.map (fun np => (np.1, f np.2))) n = Option.map f (lookupF es n) :=
  lookupF_map_key id f (fun _ _ h => h) es n

theorem string_append_cancel_left (a b c : String) (h : a ++ b = a ++ c) : b = c := by
  have hd : a.data ++ b.data = a.data ++ c.data := by
    have hq := congrArg String.data h
    simpa [String.data_append] using hq
  cases b
  cases c
  exact congrArg String.mk (List.append_cancel_left hd)

theorem structEntries_append : ∀ (fs gs : GoFields) (i : Nat) (k : String),
    structEntries (fs.append gs) i k = structEntries fs i k ++ structEntries gs (i + fs.length) k
  | .nil, gs, i, k => by simp [GoFields.append, structEntries, GoFields.length]
  | .cons f fs, gs, i, k => by
    simp only [GoFields.append, structEntries, GoFields.length,
      structEntries_append fs gs (i + 1) k, List.append_assoc]
    have h : i + 1 + fs.length = i + (fs.length + 1) := by omega
    rw [h]

/-! The predicate of claim C6: no field of the type, searched recursively
through nested, embedded and indirect members, carries a non-empty value
under the tag key. -/

mutual
/-- No field reachable inside the type carries a non-empty tag value. -/
def noTagged : GoType → String → Bool
  | .ptr e, k => noTagged e k
  | .structT _ _ _ fs, k => noTaggedFields fs k
  | _, _ => true

/-- No field of the list, nor of the types below it, carries a non-empty
tag value. -/
def noTaggedFields : GoFields → String → Bool
  | .nil, _ => true
  | .cons (.mk tagL _ ty) rest, k =>
    (match tagLookup tagL k with
     | some tv => tv == ("")
     | none => true) && noTagged ty k && noTaggedFields rest k
end

mutual
theorem noTagged_extractFields : ∀ (t : GoType) (k : String),
    noTagged t k = true → extractFields t k = []
  | .str, _, _ => rfl
  | .scalar, _, _ => rfl
  | .ptr e, k, h => by
    have he := noTagged_extractFields e k (by simpa [noTagged] using h)
    simp [extractFields, he]
  | .structT _ _ _ fs, k, h => by
    have hs := noTaggedFields_structEntries fs 0 k (by simpa [noTagged] using h)
    simpa [extractFields] using hs

theorem noTaggedFields_structEntries : ∀ (fs : GoFields) (i : Nat) (k : String),
    noTaggedFields fs k = true → structEntries fs i k = []
  | .nil, _, _, _ => rfl
  | .cons (.mk tagL anon ty) rest, i, k, h => by
    simp only [noTaggedFields, Bool.and_eq_true] at h
    obtain ⟨⟨htag, hty⟩, hrest⟩ := h
    have hsub := noTagged_extractFields ty k hty
    have htail := noTaggedFields_structEntries rest (i + 1) k hrest
    cases htl : tagLookup tagL k with
    | none => simp [structEntries, fieldEntries, htl, hsub, htail]
    | some tv =>
      rw [htl] at htag
      have htv : tv = ("") := by simpa using htag
      simp [structEntries, fieldEntries, htl, htv, hsub, htail]
end

/-! Concrete scenario material: the `pair` record of the spec (`K` tagged
`k`, `V` tagged `v`) and the engine behaviour of the pattern
`^(?P<k>.*)=(?P<v>.*)$`, whose group-name list is `["", "k", "v"]` and
whose only interesting input here is `"a=b"`. -/

/-- The record type of the spec scenario: a named struct with string
fields `K` (tagged `k`) and `V` (tagged `v`). -/
def pairType : GoType :=
  .structT true false false
    (.cons (.mk [("rx", "k")] false .str)
      (.cons (.mk [("rx", "v")] false .str) .nil))

/-- The engine handle for the pattern of the scenario: group names
`["", "k", "v"]`; on input `"a=b"` the single match is
`["a=b", "a", "b"]`. -/
def pairEngine : RegexEngine :=
  { subexpNames := ["", "k", "v"]
    findStringSubmatch := fun s =>
      if s = ("a=b") then some [("a=b"), ("a"), ("b")] else none
    findAllStringSubmatch := fun s _ =>
      if s = ("a=b") then some [[("a=b"), ("a"), ("b")]] else none }

/-- The matcher `Compile` assembles for the scenario. -/
def pairRe : Regexp :=
  { ty := pairType, engine := pairEngine
    captures := [{ index := 1, get := [Step.field 0] },
                 { index := 2, get := [Step.field 1] }] }

/-- C1: for the struct type with fields `K` tagged `k` and `V` tagged `v`,
compiling the pattern with tag key `rx` succeeds, and `FindStringStruct`
on input `"a=b"` returns matched and the record with `K = "a"` and
`V = "b"`. -/
theorem C1_pair_scenario :
    Compile pairType ("rx") (some pairEngine) = Outcome.ok pairRe ∧
    pairRe.FindStringStruct ("a=b") (zeroValue pairType) =
      some (true, GoValue.structV [GoValue.str ("a"), GoValue.str ("b")]) :=
  ⟨rfl, rfl⟩

/-- C4: when the engine reports zero matches (the nil result of
`FindAllStringSubmatch`), `FindAllStringStruct` returns the empty
sequence: no error value exists in its signature, and in particular the
result is never a non-empty sequence of zero-valued records. -/
theorem C4_findall_zero_matches (re : Regexp) (s : String) (n : Int)
    (h : re.engine.findAllStringSubmatch s n = none) :
    re.FindAllStringStruct s n = some [] := by
  simp [Regexp.FindAllStringStruct, h]

/-- C4 witness: the scenario matcher on the non-matching input `"x"`. -/
theorem C4_witness : pairRe.FindAllStringStruct ("x") 1 = some [] :=
  C4_findall_zero_matches pairRe ("x") 1 rfl

/-- C5: when the engine reports no match, `FindStringStruct` returns false
and the caller-supplied target is returned untouched — no bound field is
written, so a zero-valued record stays zero-valued. -/
theorem C5_findstring_no_match (re : Regexp) (s : String) (target : GoValue)
    (h : re.engine.findStringSubmatch s = none) :
    re.FindStringStruct s target = some (false, target) := by
  simp [Regexp.FindStringStruct, h]

/-- C5 witness: the scenario matcher on the non-matching input `"x"` with
a zero-valued target. -/
theorem C5_witness :
    pairRe.FindStringStruct ("x") (zeroValue pairType) =
      some (false, zeroValue pairType) :=
  C5_findstring_no_match pairRe ("x") (zeroValue pairType) rfl

/-- C6: a struct type in which no field, searched recursively, carries a
non-empty value under the tag key makes `Compile` panic with the
no-tagged-field configuration error, for every successfully compiled
pattern; no matcher is returned. -/
theorem C6_no_tagged_field_panics (T : GoType) (k : String) (eng : RegexEngine)
    (hT : isStructKind T = true) (hk : k ≠ ("")) (h : noTagged T k = true) :
    Compile T k (some eng) =
      Outcome.panicked (("type has no fields with stuct tag ") ++ k) := by
  have he := noTagged_extractFields T k h
  simp [Compile, hk, hT, he]

/-- A struct type with a single untagged string field. -/
def untaggedType : GoType :=
  .structT true false false (.cons (.mk [] false .str) .nil)

/-- C6 witness: the untagged record type panics under tag key `rx`. -/
theorem C6_witness :
    Compile untaggedType ("rx") (some pairEngine) =
      Outcome.panicked (("type has no fields with stuct tag ") ++ ("rx")) :=
  C6_no_tagged_field_panics untaggedType ("rx") pairEngine rfl (by decide) rfl

/-- C7: whenever the engine reports a first match identically through the
single-match operation and the all-matches operation bounded by 1, the
record produced by `FindStringStruct` on a fresh zero-valued target equals
the first element of the sequence produced by `FindAllStringStruct` with
limit 1. -/
theorem C7_findstring_eq_first_findall (re : Regexp) (s : String) (m : List String)
    (h1 : re.engine.findStringSubmatch s = some m)
    (h2 : re.engine.findAllStringSubmatch s 1 = some [m]) :
    (re.FindAllStringStruct s 1).bind List.head? =
      Option.map Prod.snd (re.FindStringStruct s (zeroValue re.ty)) := by
  cases hd : deserialize m re.captures re.ty (zeroValue re.ty) with
  | none =>
    simp [Regexp.FindAllStringStruct, Regexp.FindStringStruct, List.mapM.loop, h1, h2, hd]
  | some v =>
    simp [Regexp.FindAllStringStruct, Regexp.FindStringStruct, List.mapM.loop, h1, h2, hd]

/-- C7 witness: the scenario matcher and input, where both operations see
the single match `["a=b", "a", "b"]`. -/
theorem C7_witness :
    (pairRe.FindAllStringStruct ("a=b") 1).bind List.head? =
      Option.map Prod.snd (pairRe.FindStringStruct ("a=b") (zeroValue pairRe.ty)) :=
  C7_findstring_eq_first_findall pairRe ("a=b") [("a=b"), ("a"), ("b")] rfl rfl

/-! Characterization of the capture-building loop of `Compile`. -/

theorem buildCapturesAux_mem_spec :
    ∀ (names : List String) (i : Nat) (fields : List (String × Path)) (c : capture),
      c ∈ buildCapturesAux names i fields →
        ∃ j n, names[j]? = some n ∧ 1 ≤ i + j ∧ n ≠ ("") ∧
          lookupF fields n = some c.get ∧ c.index = i + j := by
  intro names
  induction names with
  | nil => intro i fields c hc; simp [buildCapturesAux] at hc
  | cons name rest ih =>
    intro i fields c hc
    simp only [buildCapturesAux] at hc
    by_cases hi : i = 0
    · simp only [hi, if_pos rfl] at hc
      obtain ⟨j, n, h1, h2, h3, h4, h5⟩ := ih (0 + 1) fields c hc
      refine ⟨j + 1, n, by simpa using h1, by omega, h3, h4, by omega⟩
    · simp only [if_neg hi] at hc
      by_cases hn : name = ("")
      · simp only [hn, if_pos rfl] at hc
        obtain ⟨j, n, h1, h2, h3, h4, h5⟩ := ih (i + 1) fields c hc
        refine ⟨j + 1, n, by simpa using h1, by omega, h3, h4, by omega⟩
      · simp only [if_neg hn] at hc
        cases hl : lookupF fields name with
        | none =>
          rw [hl] at hc
          obtain ⟨j, n, h1, h2, h3, h4, h5⟩ := ih (i + 1) fields c hc
          refine ⟨j + 1, n, by simpa using h1, by omega, h3, h4, by omega⟩
        | some p =>
          rw [hl] at hc
          rcases List.mem_cons.mp hc with hc | hc
          · subst hc
            exact ⟨0, name, by simp, by omega, hn, hl, by simp⟩
          · obtain ⟨j, n, h1, h2, h3, h4, h5⟩ := ih (i + 1) fields c hc
            refine ⟨j + 1, n, by simpa using h1, by omega, h3, h4, by omega⟩

theorem buildCapturesAux_mem_intro :
    ∀ (names : List String) (i : Nat) (fields : List (String × Path))
      (j : Nat) (n : String) (p : Path),
      names[j]? = some n → 1 ≤ i + j → n ≠ ("") → lookupF fields n = some p →
        ({ index := i + j, get := p } : capture) ∈ buildCapturesAux names i fields := by
  intro names
  induction names with
  | nil => intro i fields j n p h1; simp at h1
  | cons name rest ih =>
    intro i fields j n p h1 h2 h3 h4
    cases j with
    | zero =>
      have hn : n = name := by simpa using h1.symm
      subst hn
      have hi : ¬ i = 0 := by omega
      simp only [buildCapturesAux, if_neg hi, if_neg h3, h4]
      exact List.mem_cons_self _ _
    | succ j =>
      have h1r : rest[j]? = some n := by simpa using h1
      have hmem := ih (i + 1) fields j n p h1r (by omega) h3 h4
      have harith : i + 1 + j = i + (j + 1) := by omega
      rw [harith] at hmem
      simp only [buildCapturesAux]
      by_cases hi : i = 0
      · simpa [hi] using hmem
      · simp only [if_neg hi]
        by_cases hn : name = ("")
        · simpa [hn] using hmem
        · simp only [if_neg hn]
          cases hl : lookupF fields name with
          | none => exact hmem
          | some q => exact List.mem_cons_of_mem _ hmem

theorem buildCapturesAux_sorted :
    ∀ (names : List String) (i : Nat) (fields : List (String × Path)),
      (buildCapturesAux names i fields).Pairwise (fun a b => a.index < b.index) := by
  intro names
  induction names with
  | nil => intro i fields; simp [buildCapturesAux]
  | cons name rest ih =>
    intro i fields
    have hlb : ∀ c : capture, c ∈ buildCapturesAux rest (i + 1) fields → i < c.index := by
      intro c hc
      obtain ⟨j, n, _, _, _, _, h5⟩ := buildCapturesAux_mem_spec rest (i + 1) fields c hc
      omega
    simp only [buildCapturesAux]
    by_cases hi : i = 0
    · simpa [hi] using ih (i + 1) fields
    · simp only [if_neg hi]
      by_cases hn : name = ("")
      · simpa [hn] using ih (i + 1) fields
      · simp only [if_neg hn]
        cases hl : lookupF fields name with
        | none => exact ih (i + 1) fields
        | some p => exact List.Pairwise.cons hlb (ih (i + 1) fields)

/-- C3: the binding sequence of a compiled matcher contains exactly the
bindings of group ordinals at least 1 whose engine-reported name is
non-empty and resolves in the fields map (the path bound being the
resolved one), and the sequence is ordered by ordinal ascending. -/
theorem C3_capture_binding (names : List String) (fields : List (String × Path)) :
    (∀ c : capture, c ∈ buildCaptures names fields ↔
      (1 ≤ c.index ∧ ∃ n, names[c.index]? = some n ∧ n ≠ ("") ∧
        lookupF fields n = some c.get)) ∧
    (buildCaptures names fields).Pairwise (fun a b => a.index < b.index) := by
  constructor
  · intro c
    constructor
    · intro hc
      obtain ⟨j, n, h1, h2, h3, h4, h5⟩ := buildCapturesAux_mem_spec names 0 fields c hc
      have hj : j = c.index := by omega
      subst hj
      exact ⟨by omega, n, h1, h3, h4⟩
    · rintro ⟨h1, n, h2, h3, h4⟩
      have := buildCapturesAux_mem_intro names 0 fields c.index n c.get h2 (by omega) h3 h4
      simpa using this
  · exact buildCapturesAux_sorted names 0 fields

/-- C3 witness: the scenario group names and fields map; ordinal 1 binds
the first field, ordinal 0 never binds, and the sequence is sorted. -/
theorem C3_witness :
    (({ index := 1, get := [Step.field 0] } : capture) ∈
      buildCaptures [(""), ("k"), ("v")] [(("k"), [Step.field 0]), (("v"), [Step.field 1])]) ∧
    (buildCaptures [(""), ("k"), ("v")]
        [(("k"), [Step.field 0]), (("v"), [Step.field 1])]).Pairwise
      (fun a b => a.index < b.index) :=
  ⟨((C3_capture_binding _ _).1 _).mpr ⟨Nat.le_refl 1, ("k"), rfl, by decide, rfl⟩,
   (C3_capture_binding _ _).2⟩

/-! The nested scenario: `person` with `Name` tagged `name` and an
`Address` field of unnamed struct type tagged `address`. -/

/-- The unnamed struct type of the `Address` field: `City` tagged `city`,
`Country` tagged `country`. -/
def addressType : GoType :=
  .structT false false false
    (.cons (.mk [("rx", "city")] false .str)
      (.cons (.mk [("rx", "country")] false .str) .nil))

/-- The `person` record type of the nested scenario. -/
def personType : GoType :=
  .structT true false false
    (.cons (.mk [("rx", "name")] false .str)
      (.cons (.mk [("rx", "address")] false addressType) .nil))

/-- The engine handle of the nested scenario: groups `name`,
`address__city`, `address__country`; the input `"X / Y / Z"` matches with
submatches `X`, `Y`, `Z`. -/
def personEngine : RegexEngine :=
  { subexpNames := [(""), ("name"), ("address__city"), ("address__country")]
    findStringSubmatch := fun s =>
      if s = ("X / Y / Z") then some [("X / Y / Z"), ("X"), ("Y"), ("Z")] else none
    findAllStringSubmatch := fun s _ =>
      if s = ("X / Y / Z") then some [[("X / Y / Z"), ("X"), ("Y"), ("Z")]] else none }

/-- The matcher `Compile` assembles for the nested scenario. -/
def personRe : Regexp :=
  { ty := personType, engine := personEngine
    captures := [{ index := 1, get := [Step.field 0] },
                 { index := 2, get := [Step.field 1, Step.field 0] },
                 { index := 3, get := [Step.field 1, Step.field 1] }] }

/-- C2: a field with non-empty tag value `t` whose type is a recursable
struct contributes, for every name `n` the recursion resolves to path `p`,
the composite name `t ++ "__" ++ n` bound to the path that first selects
the field and then follows `p` (later sibling fields may shadow it, hence
the `orE`); and in the nested scenario compilation resolves `name`,
`address__city` and `address__country`, and matching `"X / Y / Z"`
populates the record `Name = X, Address.City = Y, Address.Country = Z`. -/
theorem C2_composite_naming (tagL : GoTag) (anon : Bool) (ty : GoType)
    (rest : GoFields) (i : Nat) (k t n : String) (p : Path)
    (h1 : tagLookup tagL k = some t) (h2 : ¬ t = (""))
    (h3 : isStructRecurse ty = true)
    (h4 : lookupF (extractFields ty k) n = some p) :
    lookupF (structEntries (.cons (.mk tagL anon ty) rest) i k) (t ++ ("__") ++ n) =
      orE (lookupF (structEntries rest (i + 1) k) (t ++ ("__") ++ n))
          (some (Step.field i :: p)) ∧
    Compile personType ("rx") (some personEngine) = Outcome.ok personRe ∧
    personRe.FindStringStruct ("X / Y / Z") (zeroValue personType) =
      some (true, GoValue.structV
        [GoValue.str ("X"), GoValue.structV [GoValue.str ("Y"), GoValue.str ("Z")]]) := by
  refine ⟨?_, rfl, rfl⟩
  have hg : ∀ a b : String, t ++ ("__") ++ a = t ++ ("__") ++ b → a = b := by
    intro a b h
    have h1' : ("__") ++ a = ("__") ++ b :=
      string_append_cancel_left t _ _ (by simpa [String.append_assoc] using h)
    exact string_append_cancel_left ("__") a b h1'
  have hfe : fieldEntries (.mk tagL anon ty) i k =
      (extractFields ty k).map
        (fun np => (t ++ ("__") ++ np.1, Step.field i :: np.2)) := by
    simp [fieldEntries, h1, h2, h3, String.append_assoc]
  rw [structEntries, lookupF_append, hfe]
  have hmap := lookupF_map_key (fun m => t ++ ("__") ++ m)
      (fun q => Step.field i :: q) hg (extractFields ty k) n
  rw [hmap, h4]
  rfl

/-- C2 witness: the `Address` field of the nested scenario, at index 1,
contributing `address__city` with path `[field 1, field 0]`. -/
theorem C2_witness :
    lookupF (structEntries (.cons (.mk [("rx", "address")] false addressType) .nil) 1 ("rx"))
        (("address") ++ ("__") ++ ("city")) =
      orE (lookupF (structEntries .nil 2 ("rx")) (("address") ++ ("__") ++ ("city")))
          (some (Step.field 1 :: [Step.field 0])) ∧
    Compile personType ("rx") (some personEngine) = Outcome.ok personRe ∧
    personRe.FindStringStruct ("X / Y / Z") (zeroValue personType) =
      some (true, GoValue.structV
        [GoValue.str ("X"), GoValue.structV [GoValue.str ("Y"), GoValue.str ("Z")]]) :=
  C2_composite_naming [("rx", "address")] false addressType .nil 1 ("rx") ("address")
    ("city") [Step.field 0] rfl (by decide) rfl rfl

/-! Claim C9: untagged anonymous members and sibling shadowing. -/

/-- A named struct type exposing one field tagged `x`. -/
def innerXType : GoType :=
  .structT true false false (.cons (.mk [("rx", "x")] false .str) .nil)

/-- A record in which an embedded member redeclares the capture name `x`
already used by an earlier sibling. -/
def collisionType : GoType :=
  .structT true false false
    (.cons (.mk [("rx", "x")] false .str)
      (.cons (.mk [] true innerXType) .nil))

/-- C9: sibling fields processed later shadow earlier ones (the `orE`
gives the later block priority), and an untagged anonymous member merges
the names resolved inside it into the enclosing mapping with no prefix —
only the paths gain the member's field step. -/
theorem C9_anonymous_merge (tagL : GoTag) (ty : GoType) (rest : GoFields)
    (i : Nat) (k m : String)
    (h : (tagLookup tagL k).getD ("") = ("")) :
    (∀ (fs1 fs2 : GoFields) (j : Nat) (key : String),
      lookupF (structEntries (fs1.append fs2) j k) key =
        orE (lookupF (structEntries fs2 (j + fs1.length) k) key)
            (lookupF (structEntries fs1 j k) key)) ∧
    lookupF (structEntries (.cons (.mk tagL true ty) rest) i k) m =
      orE (lookupF (structEntries rest (i + 1) k) m)
          (Option.map (fun p => Step.field i :: p) (lookupF (extractFields ty k) m)) := by
  constructor
  · intro fs1 fs2 j key
    rw [structEntries_append, lookupF_append]
  · have hfe : fieldEntries (.mk tagL true ty) i k =
        (extractFields ty k).map (fun np => (np.1, Step.field i :: np.2)) := by
      cases htl : tagLookup tagL k with
      | none => simp [fieldEntries, htl]
      | some tv =>
        have htv : tv = ("") := by simpa [htl] using h
        simp [fieldEntries, htl, htv]
    rw [structEntries, lookupF_append, hfe, lookupF_map_path]

/-- C9 witness: an embedded member at index 1 whose resolved name `x`
collides with the tagged sibling at index 0; the embedded (later) field
wins, and the merged name carries no prefix. -/
theorem C9_witness :
    ((∀ (fs1 fs2 : GoFields) (j : Nat) (key : String),
      lookupF (structEntries (fs1.append fs2) j ("rx")) key =
        orE (lookupF (structEntries fs2 (j + fs1.length) ("rx")) key)
            (lookupF (structEntries fs1 j ("rx")) key)) ∧
    lookupF (structEntries (.cons (.mk [] true innerXType) .nil) 1 ("rx")) ("x") =
      orE (lookupF (structEntries .nil 2 ("rx")) ("x"))
          (Option.map (fun p => Step.field 1 :: p)
            (lookupF (extractFields innerXType ("rx")) ("x")))) ∧
    lookupF (extractFields collisionType ("rx")) ("x") =
      some [Step.field 1, Step.field 0] :=
  ⟨C9_anonymous_merge [] innerXType .nil 1 ("rx") ("x") rfl, rfl⟩

/-! Claim C8: pointer fields.  A tagged field of pointer type is NOT
recursed into: `isStruct` in the source checks `Kind() == reflect.Struct`,
which is false for a pointer, so the field is bound directly. -/

/-- A record with a single tagged field of pointer-to-struct type. -/
def taggedPtrType : GoType :=
  .structT true false false
    (.cons (.mk [("rx", "a")] false (.ptr innerXType)) .nil)

/-- C8 counterexample: for the tagged field of type pointer-to-struct, the
resolver does not recurse into the pointee and produces no
allocate-then-descend step: the whole mapping is the single direct
binding of `a`, and no composite `a__x` name exists. -/
theorem C8_counterexample :
    extractFields taggedPtrType ("rx") = [(("a"), [Step.field 0])] ∧
    lookupF (extractFields taggedPtrType ("rx")) (("a") ++ ("__") ++ ("x")) = none :=
  ⟨rfl, rfl⟩

/-- C8 amended: when the resolver is applied to a pointer type itself —
which happens when it recurses into an untagged anonymous member of
pointer type — it recurses into the pointee and prefixes every produced
path with an allocate-then-descend step, so that deserialization through
such a member allocates a fresh pointee when the pointer is nil and then
writes into it; a tagged field of pointer type is instead bound directly,
without recursion (see the counterexample). -/
theorem C8_amended_ptr_resolution :
    (∀ (e : GoType) (k : String),
      extractFields (.ptr e) k =
        (extractFields e k).map (fun np => (np.1, Step.deref :: np.2))) ∧
    (∀ (tagL : GoTag) (ty : GoType) (rest : GoFields) (i : Nat) (k m : String),
      (tagLookup tagL k).getD ("") = ("") →
      lookupF (structEntries (.cons (.mk tagL true (.ptr ty)) rest) i k) m =
        orE (lookupF (structEntries rest (i + 1) k) m)
            (Option.map (fun p => Step.field i :: Step.deref :: p)
              (lookupF (extractFields ty k) m))) ∧
    (∀ (e : GoType) (p : Path) (s : String) (w : GoValue),
      setPath s e (zeroValue e) p = some w →
      setPath s (.ptr e) (.ptr none) (Step.deref :: p) = some (.ptr (some w))) := by
  refine ⟨fun e k => rfl, ?_, ?_⟩
  · intro tagL ty rest i k m h
    have hstep := (C9_anonymous_merge tagL (.ptr ty) rest i k m h).2
    rw [hstep, extractFields, lookupF_map_path]
    cases lookupF (extractFields ty k) m <;> rfl
  · intro e p s w hw
    simp [setPath, hw]

/-- C8 witness: the amended statements evaluated at the embedded pointer
member and at a concrete write through a nil pointer. -/
theorem C8_witness :
    extractFields (.ptr innerXType) ("rx") =
      (extractFields innerXType ("rx")).map
        (fun np => (np.1, Step.deref :: np.2)) ∧
    lookupF (structEntries (.cons (.mk [] true (.ptr innerXType)) .nil) 0 ("rx")) ("x") =
      orE (lookupF (structEntries .nil 1 ("rx")) ("x"))
          (Option.map (fun p => Step.field 0 :: Step.deref :: p)
            (lookupF (extractFields innerXType ("rx")) ("x"))) ∧
    setPath ("v") (.ptr innerXType) (.ptr none) (Step.deref :: [Step.field 0]) =
      some (.ptr (some (GoValue.structV [GoValue.str ("v")]))) :=
  ⟨C8_amended_ptr_resolution.1 innerXType ("rx"),
   C8_amended_ptr_resolution.2.1 [] innerXType .nil 0 ("rx") ("x") rfl,
   C8_amended_ptr_resolution.2.2 innerXType [Step.field 0] ("v")
     (GoValue.structV [GoValue.str ("v")]) rfl⟩

/-! Claim C10: the frame property of deserialization.  A location whose
path diverges from every binding path (neither is a prefix of the other)
keeps its value across a matched `FindStringStruct` call: the target is
not zeroed, and only bound locations are written. -/

/-- Step equality test. -/
def stepEq : Step → Step → Bool
  | .field i, .field j => i == j
  | .deref, .deref => true
  | .field _, .deref => false
  | .deref, .field _ => false

theorem stepEq_refl (a : Step) : stepEq a a = true := by
  cases a <;> simp [stepEq]

/-- Path prefix test. -/
def isPre : Path → Path → Bool
  | [], _ => true
  | _ :: _, [] => false
  | a :: p, b :: q => stepEq a b && isPre p q

/-- Two paths diverge when neither is a prefix of the other: they select
provably different locations. -/
def diverge (p q : Path) : Bool := !(isPre p q) && !(isPre q p)

theorem diverge_nil_left (q : Path) : diverge [] q = false := by
  simp [diverge, isPre]

theorem diverge_nil_right (p : Path) : diverge p [] = false := by
  cases p <;> simp [diverge, isPre]

theorem diverge_cons (a : Step) (p q : Path) :
    diverge (a :: p) (a :: q) = diverge p q := by
  simp [diverge, isPre, stepEq_refl]

theorem setPath_frame (s : String) :
    ∀ (p : Path) (t : GoType) (v v' : GoValue) (q : Path) (u : GoValue),
      setPath s t v p = some v' → diverge p q = true →
      getPath v q = some u → getPath v' q = some u := by
  intro p
  induction p with
  | nil =>
    intro t v v' q u _ hdiv _
    rw [diverge_nil_left] at hdiv
    exact absurd hdiv (by simp)
  | cons st p ih =>
    intro t v v' q u hset hdiv hget
    cases st with
    | field i =>
      cases t with
      | str => simp [setPath] at hset
      | scalar => simp [setPath] at hset
      | ptr e => cases v <;> simp [setPath] at hset
      | structT b1 b2 b3 fs =>
        cases v with
        | str _ => simp [setPath] at hset
        | scalar => simp [setPath] at hset
        | ptr _ => simp [setPath] at hset
        | structV vs =>
          simp only [setPath] at hset
          cases hf : fs.get? i with
          | none => rw [hf] at hset; cases vs[i]? <;> simp at hset
          | some f =>
            cases hvi : vs[i]? with
            | none => rw [hf, hvi] at hset; simp at hset
            | some vi =>
              rw [hf, hvi] at hset
              have hset2 : Option.map (fun w => GoValue.structV (vs.set i w))
                  (setPath s f.ty vi p) = some v' := hset
              cases hw : setPath s f.ty vi p with
              | none => rw [hw] at hset2; simp at hset2
              | some w =>
                rw [hw] at hset2
                have hv' : v' = .structV (vs.set i w) := by
                  simpa using hset2.symm
                subst hv'
                cases q with
                | nil =>
                  rw [diverge_nil_right] at hdiv
                  exact absurd hdiv (by simp)
                | cons sq q' =>
                  cases sq with
                  | deref => simp [getPath] at hget
                  | field j =>
                    simp only [getPath] at hget ⊢
                    by_cases hij : i = j
                    · subst hij
                      rw [hvi] at hget
                      simp only [Option.some_bind] at hget
                      have hd' : diverge p q' = true := by
                        have hc := diverge_cons (Step.field i) p q'
                        rw [← hc]; exact hdiv
                      have hlen : i < vs.length :=
                        List.getElem?_eq_some.mp hvi |>.1
                      rw [List.getElem?_set_self hlen]
                      simp only [Option.some_bind]
                      exact ih f.ty vi w q' u hw hd' hget
                    · rw [List.getElem?_set_ne hij]
                      exact hget
    | deref =>
      cases t with
      | str => simp [setPath] at hset
      | scalar => simp [setPath] at hset
      | structT b1 b2 b3 fs => cases v <;> simp [setPath] at hset
      | ptr e =>
        cases v with
        | str _ => simp [setPath] at hset
        | scalar => simp [setPath] at hset
        | structV _ => simp [setPath] at hset
        | ptr ov =>
          simp only [setPath] at hset
          cases hw : setPath s e (ov.getD (zeroValue e)) p with
          | none => rw [hw] at hset; simp at hset
          | some w =>
            rw [hw] at hset
            have hv' : v' = .ptr (some w) := by simpa using hset.symm
            subst hv'
            cases q with
            | nil =>
              rw [diverge_nil_right] at hdiv
              exact absurd hdiv (by simp)
            | cons sq q' =>
              cases sq with
              | field j => simp [getPath] at hget
              | deref =>
                cases ov with
                | none => simp [getPath] at hget
                | some vo =>
                  simp only [getPath] at hget ⊢
                  have hd' : diverge p q' = true := by
                    have hc := diverge_cons Step.deref p q'
                    rw [← hc]; exact hdiv
                  exact ih e vo w q' u (by simpa using hw) hd' hget

theorem deserialize_stuck (ms : List String) (t : GoType) :
    ∀ (cs : List capture),
      (cs.foldl
        (fun acc c =>
          acc.bind (fun v => (ms[c.index]?).bind (fun m => setPath m t v c.get)))
        none) = none := by
  intro cs
  induction cs with
  | nil => rfl
  | cons c cs ih =>
    simp only [List.foldl_cons, Option.none_bind]
    exact ih

theorem deserialize_frame (ms : List String) (t : GoType) :
    ∀ (cs : List capture) (target result : GoValue) (q : Path) (u : GoValue),
      deserialize ms cs t target = some result →
      (∀ c ∈ cs, diverge c.get q = true) →
      getPath target q = some u → getPath result q = some u := by
  intro cs
  induction cs with
  | nil =>
    intro target result q u hd _ hg
    simp only [deserialize, List.foldl_nil, Option.some.injEq] at hd
    rw [← hd]; exact hg
  | cons c cs ih =>
    intro target result q u hd hdiv hg
    simp only [deserialize, List.foldl_cons, Option.some_bind] at hd
    cases hm : ms[c.index]? with
    | none =>
      rw [hm, Option.none_bind] at hd
      rw [deserialize_stuck ms t cs] at hd
      exact absurd hd (by simp)
    | some m =>
      rw [hm, Option.some_bind] at hd
      cases hs : setPath m t target c.get with
      | none =>
        rw [hs] at hd
        rw [deserialize_stuck ms t cs] at hd
        exact absurd hd (by simp)
      | some v1 =>
        rw [hs] at hd
        have h1 : getPath v1 q = some u :=
          setPath_frame m c.get t target v1 q u hs
            (hdiv c (List.mem_cons_self c cs)) hg
        exact ih v1 result q u hd (fun d hdc => hdiv d (List.mem_cons_of_mem c hdc)) h1

/-- C10: on a matched `FindStringStruct` call, every location of the
caller-supplied target whose path diverges from all binding paths keeps
the value it had before the call: the target is not zeroed, and only the
fields reached by the bindings are written. -/
theorem C10_unbound_fields_preserved (re : Regexp) (s : String)
    (target result : GoValue) (q : Path) (u : GoValue)
    (h1 : re.FindStringStruct s target = some (true, result))
    (h2 : ∀ c ∈ re.captures, diverge c.get q = true)
    (h3 : getPath target q = some u) :
    getPath result q = some u := by
  unfold Regexp.FindStringStruct at h1
  cases hm : re.engine.findStringSubmatch s with
  | none => rw [hm] at h1; simp at h1
  | some ms =>
    rw [hm] at h1
    have h1b : Option.map (fun v => ((true : Bool), v))
        (deserialize ms re.captures re.ty target) = some (true, result) := h1
    cases hd : deserialize ms re.captures re.ty target with
    | none => rw [hd] at h1b; simp at h1b
    | some v =>
      rw [hd] at h1b
      have hv : v = result := by simpa using h1b
      rw [← hv]
      exact deserialize_frame ms re.ty re.captures target v q u hd h2 h3

/-- A record with a tagged first field and an untagged second field, used
to witness the frame property. -/
def frameType : GoType :=
  .structT true false false
    (.cons (.mk [("rx", "a")] false .str)
      (.cons (.mk [] false .str) .nil))

/-- The engine handle of the frame witness: one group named `a`; input
`"z"` matches with submatch `z`. -/
def frameEngine : RegexEngine :=
  { subexpNames := [(""), ("a")]
    findStringSubmatch := fun s => if s = ("z") then some [("z"), ("z")] else none
    findAllStringSubmatch := fun _ _ => none }

/-- The matcher for the frame witness. -/
def frameRe : Regexp :=
  { ty := frameType, engine := frameEngine
    captures := [{ index := 1, get := [Step.field 0] }] }

/-- C10 witness: a target carrying `"keep"` in its unbound second field;
after the matched call wrote `"z"` into the first field, the second still
reads `"keep"`. -/
theorem C10_witness :
    getPath (GoValue.structV [GoValue.str ("z"), GoValue.str ("keep")]) [Step.field 1] =
      some (GoValue.str ("keep")) :=
  C10_unbound_fields_preserved frameRe ("z")
    (GoValue.structV [GoValue.str ("old"), GoValue.str ("keep")])
    (GoValue.structV [GoValue.str ("z"), GoValue.str ("keep")])
    [Step.field 1] (GoValue.str ("keep")) rfl (by decide) rfl

end RegexpStruct
